import Mathlib

/-!
Verification of the ingestion / chunking / search core of the
service_sap_builder repository, embedded shallowly from
src/services/openai.js and src/services/embeddings.js.

Strings are modelled as lists of characters; the external collaborators
(the chat/embedding model and the database's vector distance operator)
are parameters of the embedded functions.
-/

namespace SapBuilder

/-- Strings, modelled as lists of characters. -/
abbrev Str := List Char

/-- Characters matched by the whitespace class of the source's regexes
(the ASCII part of \s; the rare Unicode additions are not modelled). -/
def isWs (c : Char) : Bool :=
  c = ' ' || c = '\t' || c = '\n' || c = '\r' || c = Char.ofNat 11 || c = Char.ofNat 12

/-- One pass of the source's text.split(regex of whitespace runs): prevWs
records whether the previous character was whitespace, so that a run of
whitespace produces a single separator; acc is the current token, reversed. -/
def splitWsAux (prevWs : Bool) (acc : Str) : Str → List Str
  | [] => [acc.reverse]
  | c :: rest =>
    if isWs c then
      if prevWs then splitWsAux true acc rest
      else acc.reverse :: splitWsAux true [] rest
    else splitWsAux false (c :: acc) rest

/-- JS text.split on whitespace runs: the tokens between maximal whitespace
runs, keeping the empty token produced by a leading or trailing run (and the
single empty token produced by the empty string). -/
def splitWs (cs : Str) : List Str := splitWsAux false [] cs

/-- JS Array.join with a one-space separator. -/
def joinSpace : List Str → Str
  | [] => []
  | [t] => t
  | t :: ts => t ++ ' ' :: joinSpace ts

/-- Remove trailing whitespace. -/
def trimRight : Str → Str
  | [] => []
  | c :: rest =>
    let r := trimRight rest
    if r = [] && isWs c then [] else c :: r

/-- JS String.trim: remove leading and trailing whitespace. -/
def trimChars (cs : Str) : Str := trimRight (cs.dropWhile isWs)

/-- Emit the current (reversed) token if it is non-empty. -/
def emitTok (acc : Str) : List Str := if acc = [] then [] else [acc.reverse]

/-- Accumulator pass extracting the maximal non-whitespace runs. -/
def wordsOfAux (acc : Str) : Str → List Str
  | [] => emitTok acc
  | c :: rest =>
    if isWs c then emitTok acc ++ wordsOfAux [] rest
    else wordsOfAux (c :: acc) rest

/-- The whitespace-delimited words of a string: its maximal runs of
non-whitespace characters (no empty tokens). -/
def wordsOf (cs : Str) : List Str := wordsOfAux [] cs

/-- Replace each run of characters matched by p with the single character
rep; prev records whether the previous character was part of a run. -/
def collapseAux (p : Char → Bool) (rep : Char) (prev : Bool) : Str → Str
  | [] => []
  | c :: rest =>
    if p c then
      if prev then collapseAux p rep true rest
      else rep :: collapseAux p rep true rest
    else c :: collapseAux p rep false rest

/-- JS String.replace of every run matched by p with rep. -/
def collapseRuns (p : Char → Bool) (rep : Char) (cs : Str) : Str :=
  collapseAux p rep false cs

/-- Newline, the second run class cleanTextForEmbedding collapses. -/
def isNl (c : Char) : Bool := c = '\n'

/-- JS cleanTextForEmbedding: collapse whitespace runs to one space, newline
runs to one newline, trim, and cap at 8000 characters. -/
def cleanTextForEmbedding (text : Str) : Str :=
  (trimChars (collapseRuns isNl '\n' (collapseRuns isWs ' ' text))).take 8000

/-- JS a or-else b for an optional numeric argument: both null (absent) and 0
are falsy, so either falls through to the next default. -/
def jsOr (x : Option Nat) (y : Nat) : Nat :=
  match x with
  | none => y
  | some n => if n = 0 then y else n

/-- The numeric values parseInt extracts from CHUNK_MAX_WORDS and
CHUNK_OVERLAP_WORDS; none models an unset or non-numeric variable (NaN,
which is falsy in the source's or-chain). -/
structure ChunkEnv where
  chunkMaxWords : Option Nat
  chunkOverlapWords : Option Nat

/-- Effective chunk size: the argument if truthy, else the environment value
if truthy, else 50. -/
def effMaxWords (cenv : ChunkEnv) (maxWords : Option Nat) : Nat :=
  jsOr maxWords (jsOr cenv.chunkMaxWords 50)

/-- Effective overlap: the argument if truthy, else the environment value if
truthy, else 25. -/
def effOverlap (cenv : ChunkEnv) (overlap : Option Nat) : Nat :=
  jsOr overlap (jsOr cenv.chunkOverlapWords 25)

/-- The source's chunking for-loop, indexed by fuel: each loop iteration
consumes one unit, and none means the fuel ran out before the loop exited,
which models the source loop running forever (its step i + step never
reaching words.length). The body slices maxW words starting at i, joins them
with spaces, trims, and keeps the chunk when it is non-empty. -/
def chunkLoopFuel (words : List Str) (maxW step i : Nat) : Nat → Option (List Str)
  | 0 => if words.length ≤ i then some [] else none
  | fuel + 1 =>
    if words.length ≤ i then some []
    else
      let chunk := trimChars (joinSpace ((words.drop i).take maxW))
      Option.map (fun rest => if chunk = [] then rest else chunk :: rest)
        (chunkLoopFuel words maxW step (i + step) fuel)

/-- JS splitTextIntoChunks. The loop runs with words.length + 1 fuel, which
is enough for every terminating run (one iteration per fuel unit, and the
index advances by at least one when the step is positive); the none result
models the infinite loop the source enters when the step
maxWords - overlap is not positive. -/
def splitTextIntoChunks (cenv : ChunkEnv) (text : Str)
    (maxWords overlap : Option Nat) : Option (List Str) :=
  let maxWordsToUse := effMaxWords cenv maxWords
  let overlapToUse := effOverlap cenv overlap
  let words := splitWs text
  chunkLoopFuel words maxWordsToUse (maxWordsToUse - overlapToUse) 0 (words.length + 1)

/-- The string en. -/
def enStr : Str := ['e', 'n']

/-- The string auto. -/
def autoStr : Str := ['a', 'u', 't', 'o']

/-- The string unknown. -/
def unknownStr : Str := ['u', 'n', 'k', 'n', 'o', 'w', 'n']

/-- The string documentation. -/
def documentationStr : Str :=
  ['d', 'o', 'c', 'u', 'm', 'e', 'n', 't', 'a', 't', 'i', 'o', 'n']

/-- The string uploaded. -/
def uploadedStr : Str := ['u', 'p', 'l', 'o', 'a', 'd', 'e', 'd']

/-- Fields of the JSON object the chat model is asked to return.
technicalTerms may be absent: the source reads result.technicalTerms with an
or-else to the empty array. -/
structure TranslationJson where
  detectedLanguage : Str
  translatedText : Str
  wasTranslated : Bool
  technicalTerms : Option (List Str)
deriving DecidableEq

/-- Result shape of translateToEnglishPreservingTechnicalTerms. -/
structure TransResult where
  originalText : Str
  translatedText : Str
  wasTranslated : Bool
  detectedLanguage : Str
  technicalTerms : List Str
deriving DecidableEq

/-- Outcome of the chat-completion call combined with JSON.parse of its
content: error e when the API call throws, ok none when JSON.parse throws on
the returned content, ok (some j) when parsing succeeds. Both failure kinds
land in the same catch of the source. -/
abbrev ModelOutcome := Except Str (Option TranslationJson)

/-- JS translateToEnglishPreservingTechnicalTerms. The model call and the
parse of its response sit inside one try whose catch returns the original
text untranslated with detectedLanguage unknown; the outcome of the external
call is the first argument. The sourceLanguage argument is only logged and
put in the prompt, never tested by the code. -/
def translateToEnglishPreservingTechnicalTerms (response : ModelOutcome)
    (text : Str) (_sourceLanguage : Str) : TransResult :=
  match response with
  | .ok (some result) =>
    { originalText := text
      translatedText := result.translatedText
      wasTranslated := result.wasTranslated
      detectedLanguage := result.detectedLanguage
      technicalTerms := result.technicalTerms.getD [] }
  | _ =>
    { originalText := text
      translatedText := text
      wasTranslated := false
      detectedLanguage := unknownStr
      technicalTerms := [] }

/-- External collaborators of the persistence and search functions, over an
abstract vector type V: the translation model (its outcome indexed by the
text and source language it is invoked on), the embedding model (which can
fail, and the failure is rethrown by generateEmbedding), and the database's
vector distance operator. -/
structure Env (V : Type) where
  translateOutcome : Str → Str → ModelOutcome
  embed : Str → Except Str V
  dist : V → V → ℚ

/-- A stored row of embeddings_base as the search queries read it (the
metadata JSON column is carried opaquely). -/
structure Row (V : Type) where
  id : Nat
  content : Str
  contentType : Str
  metadata : Str
  embedding : V
  createdAt : Nat
deriving DecidableEq

/-- One mapped search result: distance from the query and the derived
similarity max(0, 1 - distance). -/
structure SearchHit where
  id : Nat
  content : Str
  contentType : Str
  metadata : Str
  distance : ℚ
  similarity : ℚ
  createdAt : Nat
deriving DecidableEq

/-- The row-to-result mapping both search functions apply. -/
def mapRow {V : Type} (d : V → V → ℚ) (q : V) (r : Row V) : SearchHit :=
  { id := r.id
    content := r.content
    contentType := r.contentType
    metadata := r.metadata
    distance := d r.embedding q
    similarity := max 0 (1 - d r.embedding q)
    createdAt := r.createdAt }

/-- JS truthiness of the optional contentType argument: the filter clause is
added only for a non-null, non-empty string, and then compares the column
for equality. -/
def rowPassesCt {V : Type} (ct : Option Str) (r : Row V) : Bool :=
  match ct with
  | none => true
  | some t => if t = [] then true else decide (r.contentType = t)

/-- Insert a row into a list sorted by ascending distance from q. -/
def insertByDist {V : Type} (d : V → V → ℚ) (q : V) (r : Row V) :
    List (Row V) → List (Row V)
  | [] => [r]
  | s :: rest =>
    if d r.embedding q ≤ d s.embedding q then r :: s :: rest
    else s :: insertByDist d q r rest

/-- ORDER BY distance ASC, as an insertion sort. -/
def sortByDist {V : Type} (d : V → V → ℚ) (q : V) : List (Row V) → List (Row V)
  | [] => []
  | r :: rest => insertByDist d q r (sortByDist d q rest)

/-- WHERE clause of the fixed-threshold query of searchSimilar: the caller's
threshold is the only distance bound, plus the optional contentType filter. -/
def searchSimilarWhere {V : Type} (d : V → V → ℚ) (q : V) (threshold : ℚ)
    (ct : Option Str) (r : Row V) : Bool :=
  decide (d r.embedding q ≤ threshold) && rowPassesCt ct r

/-- Candidate rows of searchSimilar's SQL before ordering and LIMIT. -/
def searchSimilarFiltered {V : Type} (d : V → V → ℚ) (tbl : List (Row V))
    (q : V) (threshold : ℚ) (ct : Option Str) : List (Row V) :=
  tbl.filter (searchSimilarWhere d q threshold ct)

/-- Rows the fixed-threshold SQL of searchSimilar returns: filtered by its
WHERE clause, ordered ascending by distance, truncated to the limit. -/
def searchSimilarRows {V : Type} (d : V → V → ℚ) (tbl : List (Row V)) (q : V)
    (threshold : ℚ) (ct : Option Str) (lim : Nat) : List (Row V) :=
  (sortByDist d q (searchSimilarFiltered d tbl q threshold ct)).take lim

/-- JS searchSimilar: clean the query text, embed it, run the single
fixed-threshold query, map the rows; an embedding failure propagates. -/
def searchSimilar {V : Type} (env : Env V) (tbl : List (Row V))
    (searchText : Str) (contentType : Option Str) (lim : Nat)
    (threshold : ℚ) : Except Str (List SearchHit) :=
  match env.embed (cleanTextForEmbedding searchText) with
  | .error e => .error e
  | .ok qv =>
    .ok ((searchSimilarRows env.dist tbl qv threshold contentType lim).map
      (mapRow env.dist qv))

/-- WHERE clause of the progressive query: bounded by the current threshold
and additionally by the fixed maxDistance ceiling, plus the optional
contentType filter. -/
def progressiveWhere {V : Type} (d : V → V → ℚ) (q : V) (threshold maxD : ℚ)
    (ct : Option Str) (r : Row V) : Bool :=
  decide (d r.embedding q ≤ threshold) && decide (d r.embedding q ≤ maxD) &&
    rowPassesCt ct r

/-- Rows one progressive attempt returns. -/
def progressiveRows {V : Type} (d : V → V → ℚ) (tbl : List (Row V)) (q : V)
    (threshold maxD : ℚ) (ct : Option Str) (lim : Nat) : List (Row V) :=
  (sortByDist d q (tbl.filter (progressiveWhere d q threshold maxD ct))).take lim

/-- The hardcoded ascending threshold sequence of the progressive search. -/
def progressiveThresholds : List ℚ := [1, 3/2, 2, 5/2]

/-- The threshold loop: try each threshold with the one precomputed query
vector, stop at the first non-empty result set; if none yields rows, the
results stay empty and the used threshold stays null. -/
def progressiveLoop {V : Type} (d : V → V → ℚ) (tbl : List (Row V)) (q : V)
    (maxD : ℚ) (ct : Option Str) (lim : Nat) :
    List ℚ → List (Row V) × Option ℚ
  | [] => ([], none)
  | t :: rest =>
    let rows := progressiveRows d tbl q t maxD ct lim
    if rows.isEmpty then progressiveLoop d tbl q maxD ct lim rest
    else (rows, some t)

/-- Shape of the object searchWithProgressiveThreshold returns. The last two
fields are spread into the object only when a translation was attempted. -/
structure ProgResult where
  query : Str
  originalQuery : Str
  translatedQuery : Option Str
  wasTranslated : Bool
  usedThreshold : Option ℚ
  maxDistance : ℚ
  testedThresholds : List ℚ
  resultsCount : Nat
  results : List SearchHit
  detectedLanguage : Option Str
  technicalTerms : Option (List Str)
deriving DecidableEq

/-- A progressive-search call together with how many times it invoked the
embedding model and the translation model. -/
structure ProgCall where
  outcome : Except Str ProgResult
  embedCalls : Nat
  translateCalls : Nat

/-- JS searchWithProgressiveThreshold: translate at most once (only for a
truthy language other than en and auto), clean, generate the query embedding
once before the loop, then iterate the fixed thresholds reusing that vector;
the loop body contains no embedding or translation call. The call counters
record each invocation of the external models. -/
def searchWithProgressiveThreshold {V : Type} (env : Env V)
    (tbl : List (Row V)) (searchText : Str) (contentType : Option Str)
    (lim : Nat) (language : Str) (maxDistance : ℚ) : ProgCall :=
  let trans :=
    if language ≠ [] ∧ language ≠ enStr ∧ language ≠ autoStr then
      let ti := translateToEnglishPreservingTechnicalTerms
        (env.translateOutcome searchText language) searchText language
      (ti.translatedText, some ti, ti.wasTranslated, 1)
    else (searchText, none, false, 0)
  let textToSearch := trans.1
  let translationInfo := trans.2.1
  let wasTranslated := trans.2.2.1
  let tCalls := trans.2.2.2
  let cleanSearch := cleanTextForEmbedding textToSearch
  match env.embed cleanSearch with
  | .error e => { outcome := .error e, embedCalls := 1, translateCalls := tCalls }
  | .ok searchEmbedding =>
    let found := progressiveLoop env.dist tbl searchEmbedding maxDistance
      contentType lim progressiveThresholds
    { outcome := .ok
        { query := searchText
          originalQuery := searchText
          translatedQuery := if wasTranslated then some textToSearch else none
          wasTranslated := wasTranslated
          usedThreshold := found.2
          maxDistance := maxDistance
          testedThresholds := progressiveThresholds
          resultsCount := found.1.length
          results := found.1.map (mapRow env.dist searchEmbedding)
          detectedLanguage := translationInfo.map (fun ti => ti.detectedLanguage)
          technicalTerms := translationInfo.map (fun ti => ti.technicalTerms) }
      embedCalls := 1
      translateCalls := tCalls }

/-- A documentation_embeddings row with the columns processDocumentWithChunking
writes (doc_type is the literal uploaded; the caller's docType goes into
file_type). -/
structure DocRow where
  id : Nat
  docTitle : Str
  docType : Str
  sapComponent : Str
  originalLanguage : Str
  wasTranslated : Bool
  fileSize : Nat
  fileType : Str
  totalChunks : Nat
deriving DecidableEq

/-- An embeddings_base row with the columns the persistence path writes (the
metadata JSON column, which duplicates the chunk bookkeeping, is not
modelled). The three chunk columns are null for non-chunk rows. -/
structure EmbRow (V : Type) where
  content : Str
  embedding : V
  contentType : Str
  originalLanguage : Str
  wasTranslated : Bool
  documentId : Option Nat
  chunkIndex : Option Nat
  chunkTotal : Option Nat
deriving DecidableEq

/-- The two tables the ingestion path writes, plus the id counter standing in
for the database's id assignment (RETURNING id). -/
structure DB (V : Type) where
  docs : List DocRow
  embs : List (EmbRow V)
  nextId : Nat
deriving DecidableEq

/-- Modelled from the spec: the transaction helper of the database module is
not among the sources (only its callers are). Per the spec, the store
supports transactional multi-statement commits with rollback, and if any
step of the callback fails the entire transaction rolls back and no partial
write is left queryable: the callback's writes all become visible on
success, and on error the state is exactly the one before the call and the
error is rethrown. -/
def transaction {V α : Type} (db : DB V) (body : DB V → Except Str (α × DB V)) :
    Except Str α × DB V :=
  match body db with
  | .ok (a, db2) => (.ok a, db2)
  | .error e => (.error e, db)

/-- Work done for one chunk inside processDocumentWithChunking: translate
when the language is truthy and not en (the translator itself never throws),
clean, embed, and build the row its INSERT writes, carrying
document_id / chunk_index / chunk_total. An embedding failure is rethrown. -/
def processChunk {V : Type} (env : Env V) (language : Str) (documentId : Nat)
    (total index : Nat) (chunk : Str) : Except Str (EmbRow V) :=
  let tr :=
    if language ≠ [] ∧ language ≠ enStr then
      let ti := translateToEnglishPreservingTechnicalTerms
        (env.translateOutcome chunk language) chunk language
      (ti.translatedText, ti.wasTranslated)
    else (chunk, false)
  let cleanChunk := cleanTextForEmbedding tr.1
  match env.embed cleanChunk with
  | .error e => .error e
  | .ok v => .ok
    { content := cleanChunk
      embedding := v
      contentType := documentationStr
      originalLanguage := language
      wasTranslated := tr.2
      documentId := some documentId
      chunkIndex := some index
      chunkTotal := some total }

/-- The joined chunk fan-out: every chunk must succeed, and the first failure
rejects the whole batch (Promise.all). The fan-out is modelled in index
order; the final transactional state does not depend on insert order. -/
def processChunks {V : Type} (env : Env V) (language : Str) (documentId : Nat)
    (total : Nat) : Nat → List Str → Except Str (List (EmbRow V))
  | _, [] => .ok []
  | i, c :: cs =>
    match processChunk env language documentId total i c with
    | .error e => .error e
    | .ok row =>
      match processChunks env language documentId total (i + 1) cs with
      | .error e => .error e
      | .ok rows => .ok (row :: rows)

/-- Return shape of processDocumentWithChunking. -/
structure IngestResult where
  documentId : Nat
  chunksCreated : Nat
  totalWords : Nat
  wasTranslated : Bool
  language : Str
deriving DecidableEq

/-- Sample translation step of processDocumentWithChunking: when the
language is truthy and not en, a 1000-character sample is translated for the
document metadata; returns the translation info (null otherwise) and the
reported wasTranslated flag. -/
def ingestDocTranslation {V : Type} (env : Env V)
    (documentContent language : Str) : Option TransResult × Bool :=
  if language ≠ [] ∧ language ≠ enStr then
    let ti := translateToEnglishPreservingTechnicalTerms
      (env.translateOutcome (documentContent.take 1000) language)
      (documentContent.take 1000) language
    (some ti, ti.wasTranslated)
  else (none, false)

/-- Language field of the ingestion result: the detected language or-else
the input language (the or falls through on a falsy empty string too). -/
def ingestReportedLanguage (translationInfo : Option TransResult)
    (language : Str) : Str :=
  match translationInfo with
  | some ti => if ti.detectedLanguage = [] then language else ti.detectedLanguage
  | none => language

/-- The document row inserted before any chunk: doc_type is the literal
uploaded, total_chunks starts at 0, the caller's docType goes to
file_type. -/
def ingestDocRow (documentId : Nat) (docTitle dt sapComponent language : Str)
    (fileSize : Nat) (wasTranslated : Bool) : DocRow :=
  { id := documentId
    docTitle := docTitle
    docType := uploadedStr
    sapComponent := sapComponent
    originalLanguage := language
    wasTranslated := wasTranslated
    fileSize := fileSize
    fileType := dt
    totalChunks := 0 }

/-- The final UPDATE: set total_chunks on the document row with the given
id. -/
def setTotalChunks (documentId n : Nat) (d : DocRow) : DocRow :=
  if d.id = documentId then { d with totalChunks := n } else d

/-- JS processDocumentWithChunking: inside one transaction, translate a
1000-character sample for the document metadata, insert the document row
with total_chunks 0, split the content with the default chunk parameters,
process every chunk, and finally update the document's total_chunks to the
chunk count. The none result models the call never returning because the
chunker loops forever (termination of the chunker does not depend on the
database state, so it is checked up front). -/
def processDocumentWithChunking {V : Type} (env : Env V) (cenv : ChunkEnv)
    (db : DB V) (documentContent docTitle dt sapComponent language : Str) :
    Option (Except Str IngestResult × DB V) :=
  match splitTextIntoChunks cenv documentContent none none with
  | none => none
  | some chunks => some (transaction db (fun db0 =>
    let trans := ingestDocTranslation env documentContent language
    let documentId := db0.nextId
    let docRow : DocRow :=
      ingestDocRow documentId docTitle dt sapComponent language
        documentContent.length trans.2
    let db1 : DB V :=
      { docs := db0.docs ++ [docRow], embs := db0.embs, nextId := db0.nextId + 1 }
    match processChunks env language documentId chunks.length 0 chunks with
    | .error e => .error e
    | .ok rows =>
      let db2 : DB V := { db1 with embs := db1.embs ++ rows }
      let db3 : DB V :=
        { db2 with docs := db2.docs.map (setTotalChunks documentId chunks.length) }
      .ok
        ({ documentId := documentId
           chunksCreated := rows.length
           totalWords := (splitWs documentContent).length
           wasTranslated := trans.2
           language := ingestReportedLanguage trans.1 language }, db3)))

/-- A saveEmbedding call: the outcome (the new row id or the rethrown
embedding error), the database afterwards, and how many times the
translation model was invoked. -/
structure SaveOutcome (V : Type) where
  outcome : Except Str Nat
  db : DB V
  translateCalls : Nat

/-- JS saveEmbedding: translate when the language is truthy and not en,
clean, embed, insert one embeddings_base row with null chunk columns, return
the new id; an embedding failure is rethrown and nothing is inserted. -/
def saveEmbedding {V : Type} (env : Env V) (db : DB V)
    (content contentType language : Str) : SaveOutcome V :=
  let tr :=
    if language ≠ [] ∧ language ≠ enStr then
      let ti := translateToEnglishPreservingTechnicalTerms
        (env.translateOutcome content language) content language
      (ti.translatedText, ti.wasTranslated, 1)
    else (content, false, 0)
  let cleanContent := cleanTextForEmbedding tr.1
  match env.embed cleanContent with
  | .error e => { outcome := .error e, db := db, translateCalls := tr.2.2 }
  | .ok v =>
    let row : EmbRow V :=
      { content := cleanContent
        embedding := v
        contentType := contentType
        originalLanguage := language
        wasTranslated := tr.2.1
        documentId := none
        chunkIndex := none
        chunkTotal := none }
    { outcome := .ok db.nextId
      db := { db with embs := db.embs ++ [row], nextId := db.nextId + 1 }
      translateCalls := tr.2.2 }

/-- The string prompt. -/
def promptStr : Str := ['p', 'r', 'o', 'm', 'p', 't']

/-- The string sap_official. -/
def sapOfficialStr : Str :=
  ['s', 'a', 'p', '_', 'o', 'f', 'f', 'i', 'c', 'i', 'a', 'l']

/-- The user_prompts row saveUserPrompt inserts alongside the base embedding
row: it references the embedding and keeps the original (untranslated)
prompt text. -/
structure PromptRow where
  embeddingId : Nat
  userSession : Str
  promptText : Str
  projectId : Option Str
  responseSummary : Option Str
deriving DecidableEq

/-- A saveUserPrompt call: the outcome (the new prompt row id or the
rethrown embedding error), the database afterwards, the dependent
user_prompts row (null when the unit of work failed; its table is not part
of the modelled store, so the row inserted is carried here), and the number
of translation model invocations. -/
structure SavePromptOutcome (V : Type) where
  outcome : Except Str Nat
  db : DB V
  promptRow : Option PromptRow
  translateCalls : Nat

/-- JS saveUserPrompt: inside one transaction, translate when the language
is truthy and not en, clean, embed, insert the base embeddings_base row
with content_type prompt, then the user_prompts row referencing it (which
keeps the original prompt text); returns the prompt row id. An embedding
failure aborts the unit with nothing inserted. Both RETURNING ids are drawn
from the single modelled id counter. -/
def saveUserPrompt {V : Type} (env : Env V) (db : DB V)
    (promptText userSession : Str) (projectId responseSummary : Option Str)
    (language : Str) : SavePromptOutcome V :=
  let tr :=
    if language ≠ [] ∧ language ≠ enStr then
      let ti := translateToEnglishPreservingTechnicalTerms
        (env.translateOutcome promptText language) promptText language
      (ti.translatedText, ti.wasTranslated, 1)
    else (promptText, false, 0)
  let cleanContent := cleanTextForEmbedding tr.1
  match env.embed cleanContent with
  | .error e =>
    { outcome := .error e, db := db, promptRow := none, translateCalls := tr.2.2 }
  | .ok v =>
    let row : EmbRow V :=
      { content := cleanContent
        embedding := v
        contentType := promptStr
        originalLanguage := language
        wasTranslated := tr.2.1
        documentId := none
        chunkIndex := none
        chunkTotal := none }
    { outcome := .ok (db.nextId + 1)
      db := { db with embs := db.embs ++ [row], nextId := db.nextId + 2 }
      promptRow := some
        { embeddingId := db.nextId
          userSession := userSession
          promptText := promptText
          projectId := projectId
          responseSummary := responseSummary }
      translateCalls := tr.2.2 }

/-- The documentation_embeddings row saveSAPDocumentation inserts alongside
the base embedding row: doc_type is the literal sap_official. -/
structure DocEntryRow where
  embeddingId : Nat
  docTitle : Str
  docSection : Option Str
  docUrl : Str
  docType : Str
  sapComponent : Str
deriving DecidableEq

/-- A saveSAPDocumentation call, shaped like SavePromptOutcome: the doc
entry row of the columns its second INSERT writes is carried in the
outcome. -/
structure SaveDocOutcome (V : Type) where
  outcome : Except Str Nat
  db : DB V
  docRow : Option DocEntryRow
  translateCalls : Nat

/-- JS saveSAPDocumentation: inside one transaction, translate when the
language is truthy and not en, clean, embed, insert the base
embeddings_base row with content_type documentation, then the
documentation_embeddings row referencing it; returns the doc row id. An
embedding failure aborts the unit with nothing inserted. -/
def saveSAPDocumentation {V : Type} (env : Env V) (db : DB V)
    (content docTitle docUrl sapComponent : Str) (docSection : Option Str)
    (language : Str) : SaveDocOutcome V :=
  let tr :=
    if language ≠ [] ∧ language ≠ enStr then
      let ti := translateToEnglishPreservingTechnicalTerms
        (env.translateOutcome content language) content language
      (ti.translatedText, ti.wasTranslated, 1)
    else (content, false, 0)
  let cleanContent := cleanTextForEmbedding tr.1
  match env.embed cleanContent with
  | .error e =>
    { outcome := .error e, db := db, docRow := none, translateCalls := tr.2.2 }
  | .ok v =>
    let row : EmbRow V :=
      { content := cleanContent
        embedding := v
        contentType := documentationStr
        originalLanguage := language
        wasTranslated := tr.2.1
        documentId := none
        chunkIndex := none
        chunkTotal := none }
    { outcome := .ok (db.nextId + 1)
      db := { db with embs := db.embs ++ [row], nextId := db.nextId + 2 }
      docRow := some
        { embeddingId := db.nextId
          docTitle := docTitle
          docSection := docSection
          docUrl := docUrl
          docType := sapOfficialStr
          sapComponent := sapComponent }
      translateCalls := tr.2.2 }

/-- The query block of searchSimilarWithTranslation's return value plus its
result list. -/
structure TransSearchResult where
  originalQuery : Str
  translatedQuery : Str
  wasTranslated : Bool
  detectedLanguage : Str
  results : List SearchHit
  resultCount : Nat
deriving DecidableEq

/-- A searchSimilarWithTranslation call together with how many times it
invoked the translation model. -/
structure TransSearchCall where
  outcome : Except Str TransSearchResult
  translateCalls : Nat

/-- JS searchSimilarWithTranslation: translate the query whenever the
language is not en (this guard has no truthiness or auto check), use the
translation only if it reports wasTranslated, then run searchSimilar on the
chosen text; a search (embedding) failure propagates. The reported
detectedLanguage falls back to the input language on a null translation or
a falsy detected code. -/
def searchSimilarWithTranslation {V : Type} (env : Env V)
    (tbl : List (Row V)) (searchText : Str) (contentType : Option Str)
    (lim : Nat) (threshold : ℚ) (language : Str) : TransSearchCall :=
  let tr :=
    if language ≠ enStr then
      let ti := translateToEnglishPreservingTechnicalTerms
        (env.translateOutcome searchText language) searchText language
      ((if ti.wasTranslated then ti.translatedText else searchText), some ti, 1)
    else (searchText, none, 0)
  let searchTextToUse := tr.1
  match searchSimilar env tbl searchTextToUse contentType lim threshold with
  | .error e => { outcome := .error e, translateCalls := tr.2.2 }
  | .ok results =>
    { outcome := .ok
        { originalQuery := searchText
          translatedQuery := searchTextToUse
          wasTranslated :=
            match tr.2.1 with
            | some ti => ti.wasTranslated
            | none => false
          detectedLanguage :=
            match tr.2.1 with
            | some ti =>
              if ti.detectedLanguage = [] then language else ti.detectedLanguage
            | none => language
          results := results
          resultCount := results.length }
      translateCalls := tr.2.2 }

/-- Decidable equality of Except values, for evaluating concrete outcomes. -/
instance {α β : Type} [DecidableEq α] [DecidableEq β] : DecidableEq (Except α β) :=
  fun x y =>
    match x, y with
    | .error a, .error b =>
      if h : a = b then .isTrue (by rw [h]) else .isFalse (fun he => h (Except.error.inj he))
    | .error _, .ok _ => .isFalse (fun he => Except.noConfusion he)
    | .ok _, .error _ => .isFalse (fun he => Except.noConfusion he)
    | .ok a, .ok b =>
      if h : a = b then .isTrue (by rw [h]) else .isFalse (fun he => h (Except.ok.inj he))

/-- Absolute difference of rationals, written so it evaluates by cases on
the order. -/
def qDist (a b : ℚ) : ℚ := if a ≤ b then b - a else a - b

/-- Concrete one-dimensional environment for witnesses: rational vectors,
absolute difference as the store's distance operator, an embedding model
that maps every text to 0, and a translation model whose call always
fails. -/
def qEnv : Env ℚ :=
  { translateOutcome := fun _ _ => Except.error ['x']
    embed := fun _ => Except.ok 0
    dist := qDist }

/-- Environment whose embedding model always fails. -/
def failEnv : Env ℚ :=
  { translateOutcome := fun _ _ => Except.error ['x']
    embed := fun _ => Except.error ['b', 'o', 'o', 'm']
    dist := qDist }

/-- The empty store. -/
def dbEmpty : DB ℚ := { docs := [], embs := [], nextId := 0 }

/-- A stored record whose vector is dq, hence at distance dq from the zero
query vector under qEnv. -/
def rowAt (dq : ℚ) : Row ℚ :=
  { id := 1
    content := ['c']
    contentType := documentationStr
    metadata := []
    embedding := dq
    createdAt := 0 }

/-- A parsed model response claiming a translation happened on English
input: what a non-idempotent model may legally return, since the code never
tests sourceLanguage. -/
def lieJson : TranslationJson :=
  { detectedLanguage := enStr
    translatedText := ['H', 'I']
    wasTranslated := true
    technicalTerms := some [] }

/-- C10: calling splitTextIntoChunks with 0 for overlap (or for maxWords)
behaves identically to omitting the argument, because the or-chain treats 0
as falsy and falls through to the environment value or the built-in default
(maxWords 50, overlap 25). -/
theorem splitTextIntoChunks_zero_args_use_defaults (cenv : ChunkEnv)
    (text : Str) (mw ov : Option Nat) :
    splitTextIntoChunks cenv text mw (some 0) =
      splitTextIntoChunks cenv text mw none ∧
    splitTextIntoChunks cenv text (some 0) ov =
      splitTextIntoChunks cenv text none ov ∧
    effMaxWords ⟨none, none⟩ (some 0) = 50 ∧
    effOverlap ⟨none, none⟩ (some 0) = 25 :=
  ⟨rfl, rfl, rfl, rfl⟩

/-- C8: when the translation model call fails, or its output cannot be
parsed, translateToEnglishPreservingTechnicalTerms swallows the failure and
returns the original text unmodified, untranslated, with detectedLanguage
unknown and no technical terms. -/
theorem translateToEnglish_degrades_on_failure (text lang e : Str) :
    translateToEnglishPreservingTechnicalTerms (.error e) text lang =
      { originalText := text, translatedText := text, wasTranslated := false,
        detectedLanguage := unknownStr, technicalTerms := [] } ∧
    translateToEnglishPreservingTechnicalTerms (.ok none) text lang =
      { originalText := text, translatedText := text, wasTranslated := false,
        detectedLanguage := unknownStr, technicalTerms := [] } :=
  ⟨rfl, rfl⟩

/-- C5: every invocation of the progressive search calls the embedding model
exactly once, whatever the store, the language, the ceiling and however many
thresholds the loop tries. -/
theorem progressive_embeds_exactly_once {V : Type} (env : Env V)
    (tbl : List (Row V)) (text : Str) (ct : Option Str) (lim : Nat)
    (lang : Str) (maxD : ℚ) :
    (searchWithProgressiveThreshold env tbl text ct lim lang maxD).embedCalls = 1 := by
  unfold searchWithProgressiveThreshold
  dsimp only
  split <;> rfl

/-- Step size zero keeps the loop index in place, so no amount of fuel
completes the loop: the source loop runs forever. -/
theorem chunkLoopFuel_step_zero (words : List Str) (m i : Nat)
    (h : i < words.length) : ∀ fuel, chunkLoopFuel words m 0 i fuel = none := by
  intro fuel
  induction fuel with
  | zero => simp [chunkLoopFuel, Nat.not_le.mpr h]
  | succ n ih => simp [chunkLoopFuel, Nat.not_le.mpr h, ih]

/-- C7 (the code bug): the chunker has no fail-fast check of its
precondition: with effective overlap equal to maxWords (step size 0) on the
text a b c it does not report an error but loops forever - chunkLoopFuel
finds no exit however much fuel it is given, so the modelled call yields
none (non-termination) instead of an error. -/
theorem splitTextIntoChunks_no_fail_fast :
    splitTextIntoChunks ⟨none, none⟩ ['a', ' ', 'b', ' ', 'c'] (some 2) (some 2) = none ∧
    ∀ fuel, chunkLoopFuel (splitWs ['a', ' ', 'b', ' ', 'c']) 2 0 0 fuel = none := by
  refine ⟨by decide, chunkLoopFuel_step_zero _ 2 0 (by decide)⟩

/-- C9 counterexample: the translator never tests sourceLanguage; with
sourceLanguage en it still invokes the model and forwards whatever the model
returns, so a non-idempotent model response yields a changed text and
wasTranslated true on English input. -/
theorem translateToEnglish_english_counterexample :
    (translateToEnglishPreservingTechnicalTerms (.ok (some lieJson)) ['h', 'i'] enStr).wasTranslated = true ∧
    (translateToEnglishPreservingTechnicalTerms (.ok (some lieJson)) ['h', 'i'] enStr).translatedText ≠ ['h', 'i'] := by
  decide

/-- C9 amended: the English short-circuit lives in the callers, not in the
translator. With language en, every persistence and search path of the core
skips translation: saveEmbedding, saveUserPrompt and saveSAPDocumentation
invoke the translation model zero times and the base row they insert stores
the original input (cleaned) with wasTranslated false;
searchSimilarWithTranslation and searchWithProgressiveThreshold invoke it
zero times and search with the original query, reporting wasTranslated
false; inside processDocumentWithChunking both the per-chunk step and the
document-sample step skip it, each chunk row storing the cleaned original
chunk untranslated. -/
theorem english_passthrough_all_callers {V : Type} (env : Env V) (db : DB V)
    (tbl : List (Row V)) (content ct userSession docTitle docUrl comp chunk text : Str)
    (projectId responseSummary : Option Str) (docSection : Option Str)
    (ctf : Option Str) (lim : Nat) (threshold maxD : ℚ) (docId total idx : Nat) :
    (saveEmbedding env db content ct enStr).translateCalls = 0 ∧
    (∀ r ∈ (saveEmbedding env db content ct enStr).db.embs,
      r ∈ db.embs ∨ (r.content = cleanTextForEmbedding content ∧ r.wasTranslated = false)) ∧
    (saveUserPrompt env db content userSession projectId responseSummary enStr).translateCalls = 0 ∧
    (∀ r ∈ (saveUserPrompt env db content userSession projectId responseSummary enStr).db.embs,
      r ∈ db.embs ∨ (r.content = cleanTextForEmbedding content ∧ r.wasTranslated = false)) ∧
    (saveSAPDocumentation env db content docTitle docUrl comp docSection enStr).translateCalls = 0 ∧
    (∀ r ∈ (saveSAPDocumentation env db content docTitle docUrl comp docSection enStr).db.embs,
      r ∈ db.embs ∨ (r.content = cleanTextForEmbedding content ∧ r.wasTranslated = false)) ∧
    (searchSimilarWithTranslation env tbl text ctf lim threshold enStr).translateCalls = 0 ∧
    (∀ res, (searchSimilarWithTranslation env tbl text ctf lim threshold enStr).outcome = .ok res →
      res.translatedQuery = text ∧ res.wasTranslated = false ∧ res.originalQuery = text) ∧
    (searchWithProgressiveThreshold env tbl text ctf lim enStr maxD).translateCalls = 0 ∧
    (∀ pr, (searchWithProgressiveThreshold env tbl text ctf lim enStr maxD).outcome = .ok pr →
      pr.wasTranslated = false ∧ pr.translatedQuery = none ∧ pr.query = text) ∧
    (∀ row, processChunk env enStr docId total idx chunk = .ok row →
      row.content = cleanTextForEmbedding chunk ∧ row.wasTranslated = false) ∧
    ingestDocTranslation env content enStr = (none, false) := by
  have hguard : ¬(enStr ≠ [] ∧ enStr ≠ enStr) := by simp
  have hguard2 : ¬(enStr ≠ enStr) := by simp
  have hguard3 : ¬(enStr ≠ [] ∧ enStr ≠ enStr ∧ enStr ≠ autoStr) := by simp
  refine ⟨?_, ?_, ?_, ?_, ?_, ?_, ?_, ?_, ?_, ?_, ?_, ?_⟩
  · unfold saveEmbedding
    rw [if_neg hguard]
    dsimp only
    split <;> rfl
  · unfold saveEmbedding
    rw [if_neg hguard]
    dsimp only
    cases henv : env.embed (cleanTextForEmbedding content) with
    | error e =>
      dsimp only
      intro r hr
      exact Or.inl hr
    | ok v =>
      dsimp only
      intro r hr
      rcases List.mem_append.mp hr with h1 | h2
      · exact Or.inl h1
      · rcases List.mem_singleton.mp h2 with rfl
        exact Or.inr ⟨rfl, rfl⟩
  · unfold saveUserPrompt
    rw [if_neg hguard]
    dsimp only
    split <;> rfl
  · unfold saveUserPrompt
    rw [if_neg hguard]
    dsimp only
    cases henv : env.embed (cleanTextForEmbedding content) with
    | error e =>
      dsimp only
      intro r hr
      exact Or.inl hr
    | ok v =>
      dsimp only
      intro r hr
      rcases List.mem_append.mp hr with h1 | h2
      · exact Or.inl h1
      · rcases List.mem_singleton.mp h2 with rfl
        exact Or.inr ⟨rfl, rfl⟩
  · unfold saveSAPDocumentation
    rw [if_neg hguard]
    dsimp only
    split <;> rfl
  · unfold saveSAPDocumentation
    rw [if_neg hguard]
    dsimp only
    cases henv : env.embed (cleanTextForEmbedding content) with
    | error e =>
      dsimp only
      intro r hr
      exact Or.inl hr
    | ok v =>
      dsimp only
      intro r hr
      rcases List.mem_append.mp hr with h1 | h2
      · exact Or.inl h1
      · rcases List.mem_singleton.mp h2 with rfl
        exact Or.inr ⟨rfl, rfl⟩
  · unfold searchSimilarWithTranslation
    rw [if_neg hguard2]
    dsimp only
    split <;> rfl
  · unfold searchSimilarWithTranslation
    rw [if_neg hguard2]
    dsimp only
    cases hs : searchSimilar env tbl text ctf lim threshold with
    | error e =>
      dsimp only
      intro res hres
      exact absurd hres (by simp)
    | ok results =>
      dsimp only
      intro res hres
      rcases Except.ok.inj hres with rfl
      exact ⟨rfl, rfl, rfl⟩
  · unfold searchWithProgressiveThreshold
    rw [if_neg hguard3]
    dsimp only
    split <;> rfl
  · unfold searchWithProgressiveThreshold
    rw [if_neg hguard3]
    dsimp only
    cases henv : env.embed (cleanTextForEmbedding text) with
    | error e =>
      dsimp only
      intro pr hpr
      exact absurd hpr (by simp)
    | ok qv =>
      dsimp only
      intro pr hpr
      rcases Except.ok.inj hpr with rfl
      exact ⟨rfl, rfl, rfl⟩
  · unfold processChunk
    rw [if_neg hguard]
    dsimp only
    cases henv : env.embed (cleanTextForEmbedding chunk) with
    | error e =>
      dsimp only
      intro row hrow
      exact absurd hrow (by simp)
    | ok v =>
      dsimp only
      intro row hrow
      rcases Except.ok.inj hrow with rfl
      exact ⟨rfl, rfl⟩
  · unfold ingestDocTranslation
    rw [if_neg hguard]

/-- C9 amended, witness at a concrete input. -/
theorem english_passthrough_all_callers_witness :
    (saveEmbedding qEnv dbEmpty ['h', 'i'] documentationStr enStr).translateCalls = 0 ∧
    (∀ r ∈ (saveEmbedding qEnv dbEmpty ['h', 'i'] documentationStr enStr).db.embs,
      r ∈ dbEmpty.embs ∨ (r.content = cleanTextForEmbedding ['h', 'i'] ∧ r.wasTranslated = false)) ∧
    (saveUserPrompt qEnv dbEmpty ['h', 'i'] ['u'] none none enStr).translateCalls = 0 ∧
    (∀ r ∈ (saveUserPrompt qEnv dbEmpty ['h', 'i'] ['u'] none none enStr).db.embs,
      r ∈ dbEmpty.embs ∨ (r.content = cleanTextForEmbedding ['h', 'i'] ∧ r.wasTranslated = false)) ∧
    (saveSAPDocumentation qEnv dbEmpty ['h', 'i'] ['t'] ['u'] ['s'] none enStr).translateCalls = 0 ∧
    (∀ r ∈ (saveSAPDocumentation qEnv dbEmpty ['h', 'i'] ['t'] ['u'] ['s'] none enStr).db.embs,
      r ∈ dbEmpty.embs ∨ (r.content = cleanTextForEmbedding ['h', 'i'] ∧ r.wasTranslated = false)) ∧
    (searchSimilarWithTranslation qEnv [rowAt 1] ['q'] none 10 (3/2) enStr).translateCalls = 0 ∧
    (∀ res, (searchSimilarWithTranslation qEnv [rowAt 1] ['q'] none 10 (3/2) enStr).outcome = .ok res →
      res.translatedQuery = ['q'] ∧ res.wasTranslated = false ∧ res.originalQuery = ['q']) ∧
    (searchWithProgressiveThreshold qEnv [rowAt 1] ['q'] none 10 enStr (4/5)).translateCalls = 0 ∧
    (∀ pr, (searchWithProgressiveThreshold qEnv [rowAt 1] ['q'] none 10 enStr (4/5)).outcome = .ok pr →
      pr.wasTranslated = false ∧ pr.translatedQuery = none ∧ pr.query = ['q']) ∧
    (∀ row, processChunk qEnv enStr 0 1 0 ['h', 'i'] = .ok row →
      row.content = cleanTextForEmbedding ['h', 'i'] ∧ row.wasTranslated = false) ∧
    ingestDocTranslation qEnv ['h', 'i'] enStr = (none, false) :=
  english_passthrough_all_callers qEnv dbEmpty [rowAt 1] ['h', 'i'] documentationStr
    ['u'] ['t'] ['u'] ['s'] ['h', 'i'] ['q'] none none none none 10 (3/2) (4/5) 0 1 0

/-- A one-row store passing the fixed-threshold WHERE clause is returned
whole by the fixed-threshold query. -/
theorem searchSimilarRows_singleton {V : Type} (d : V → V → ℚ) (q : V)
    (thr : ℚ) (ct : Option Str) (lim : Nat) (r : Row V)
    (hw : searchSimilarWhere d q thr ct r = true) (hlim : 0 < lim) :
    searchSimilarRows d [r] q thr ct lim = [r] := by
  unfold searchSimilarRows searchSimilarFiltered
  rw [show List.filter (searchSimilarWhere d q thr ct) [r] = [r] from by simp [hw]]
  cases lim with
  | zero => exact absurd hlim (by simp)
  | succ n => simp [sortByDist, insertByDist, List.take]

/-- A progressive attempt whose WHERE clause rejects the only row returns
nothing. -/
theorem progressiveRows_singleton_empty {V : Type} (d : V → V → ℚ) (q : V)
    (thr maxD : ℚ) (ct : Option Str) (lim : Nat) (r : Row V)
    (hw : progressiveWhere d q thr maxD ct r = false) :
    progressiveRows d [r] q thr maxD ct lim = [] := by
  unfold progressiveRows
  rw [show List.filter (progressiveWhere d q thr maxD ct) [r] = [] from by simp [hw]]
  simp [sortByDist, List.take]

/-- A progressive attempt whose WHERE clause accepts the only row returns
it. -/
theorem progressiveRows_singleton {V : Type} (d : V → V → ℚ) (q : V)
    (thr maxD : ℚ) (ct : Option Str) (lim : Nat) (r : Row V)
    (hw : progressiveWhere d q thr maxD ct r = true) (hlim : 0 < lim) :
    progressiveRows d [r] q thr maxD ct lim = [r] := by
  unfold progressiveRows
  rw [show List.filter (progressiveWhere d q thr maxD ct) [r] = [r] from by simp [hw]]
  cases lim with
  | zero => exact absurd hlim (by simp)
  | succ n => simp [sortByDist, insertByDist, List.take]

/-- An empty attempt makes the threshold loop move on to the next
threshold. -/
theorem progressiveLoop_cons_empty {V : Type} (d : V → V → ℚ)
    (tbl : List (Row V)) (q : V) (maxD : ℚ) (ct : Option Str) (lim : Nat)
    (t : ℚ) (rest : List ℚ)
    (h : progressiveRows d tbl q t maxD ct lim = []) :
    progressiveLoop d tbl q maxD ct lim (t :: rest) =
      progressiveLoop d tbl q maxD ct lim rest := by
  rw [progressiveLoop, h]
  rfl

/-- A non-empty attempt stops the threshold loop at the current threshold. -/
theorem progressiveLoop_cons_found {V : Type} (d : V → V → ℚ)
    (tbl : List (Row V)) (q : V) (maxD : ℚ) (ct : Option Str) (lim : Nat)
    (t : ℚ) (rest : List ℚ) (r : Row V)
    (h : progressiveRows d tbl q t maxD ct lim = [r]) :
    progressiveLoop d tbl q maxD ct lim (t :: rest) = ([r], some t) := by
  rw [progressiveLoop, h]
  rfl

/-- C3 counterexample: searchSimilar has no secondary max-distance ceiling:
with threshold 1.5, the one-record store whose record sits at distance 1.0
from the query returns that record, not an empty result - there is no
maxDistance argument anywhere in its query. -/
theorem searchSimilar_no_secondary_ceiling_counterexample :
    searchSimilar qEnv [rowAt 1] ['q'] none 10 (3/2) =
      .ok [mapRow qEnv.dist 0 (rowAt 1)] ∧
    qEnv.dist (rowAt 1).embedding 0 = 1 := by
  have hd : qEnv.dist (rowAt 1).embedding 0 = 1 := by
    norm_num [qEnv, qDist, rowAt]
  have hw : searchSimilarWhere qEnv.dist 0 (3/2) none (rowAt 1) = true := by
    simp only [searchSimilarWhere, rowPassesCt, hd, Bool.and_true]
    norm_num
  refine ⟨?_, hd⟩
  unfold searchSimilar
  rw [show qEnv.embed (cleanTextForEmbedding ['q']) = Except.ok 0 from rfl]
  dsimp only
  rw [searchSimilarRows_singleton qEnv.dist 0 (3/2) none 10 (rowAt 1) hw (by decide)]
  rfl

/-- C3 amended: the fixed-threshold search enforces only the caller-supplied
threshold (the independent maxDistance ceiling exists only in the
progressive search): a record at distance 1.0 passes the WHERE clause with
threshold 1.5 and, in a one-record store, is returned. -/
theorem searchSimilar_enforces_only_threshold {V : Type} (env : Env V)
    (tbl : List (Row V)) (text : Str) (ct : Option Str) (lim : Nat)
    (r : Row V) (qv : V)
    (hemb : env.embed (cleanTextForEmbedding text) = .ok qv)
    (hdist : env.dist r.embedding qv = 1)
    (hct : rowPassesCt ct r = true) :
    (r ∈ tbl → r ∈ searchSimilarFiltered env.dist tbl qv (3/2) ct) ∧
    (0 < lim → searchSimilar env [r] text ct lim (3/2) = .ok [mapRow env.dist qv r]) := by
  have hw : searchSimilarWhere env.dist qv (3/2) ct r = true := by
    simp only [searchSimilarWhere, hdist, hct, Bool.and_true]
    norm_num
  constructor
  · intro hmem
    exact List.mem_filter.mpr ⟨hmem, hw⟩
  · intro hlim
    unfold searchSimilar
    rw [hemb]
    dsimp only
    rw [searchSimilarRows_singleton env.dist qv (3/2) ct lim r hw hlim]
    rfl

/-- C3 amended, witness at a concrete input. -/
theorem searchSimilar_enforces_only_threshold_witness :
    qEnv.embed (cleanTextForEmbedding ['q']) = .ok 0 ∧
    qEnv.dist (rowAt 1).embedding 0 = 1 ∧
    rowPassesCt none (rowAt 1) = true ∧
    ((rowAt 1 ∈ [rowAt 1] → rowAt 1 ∈ searchSimilarFiltered qEnv.dist [rowAt 1] 0 (3/2) none) ∧
     (0 < 10 → searchSimilar qEnv [rowAt 1] ['q'] none 10 (3/2) = .ok [mapRow qEnv.dist 0 (rowAt 1)])) :=
  ⟨rfl, by norm_num [qEnv, qDist, rowAt], rfl,
   searchSimilar_enforces_only_threshold qEnv [rowAt 1] ['q'] none 10 (rowAt 1) 0 rfl
     (by norm_num [qEnv, qDist, rowAt]) rfl⟩

/-- C4 counterexample: with the default ceiling maxDistance 0.8, a store
whose only record sits at distance 1.3 from the query yields no results and
usedThreshold null - every threshold attempt is additionally bounded by the
ceiling, so the claimed single result at usedThreshold 1.5 does not
happen. -/
theorem progressive_default_ceiling_counterexample :
    ((searchWithProgressiveThreshold qEnv [rowAt (13/10)] ['q'] none 10 autoStr (4/5)).outcome.map
      (fun pr => (pr.usedThreshold, pr.results))) = .ok (none, []) ∧
    qEnv.dist (rowAt (13/10)).embedding 0 = 13/10 := by
  have hd : qEnv.dist (rowAt (13/10)).embedding 0 = 13/10 := by
    norm_num [qEnv, qDist, rowAt]
  have hceil : decide (qEnv.dist (rowAt (13/10)).embedding 0 ≤ (4 : ℚ)/5) = false := by
    rw [hd]; norm_num
  have hw : ∀ t : ℚ, progressiveWhere qEnv.dist 0 t (4/5) none (rowAt (13/10)) = false := by
    intro t
    simp only [progressiveWhere, hceil, Bool.and_false, Bool.false_and]
  have hrows : ∀ t : ℚ, progressiveRows qEnv.dist [rowAt (13/10)] 0 t (4/5) none 10 = [] :=
    fun t => progressiveRows_singleton_empty qEnv.dist 0 t (4/5) none 10 (rowAt (13/10)) (hw t)
  refine ⟨?_, hd⟩
  unfold searchWithProgressiveThreshold
  rw [if_neg (by simp : ¬(autoStr ≠ [] ∧ autoStr ≠ enStr ∧ autoStr ≠ autoStr))]
  dsimp only
  rw [show qEnv.embed (cleanTextForEmbedding ['q']) = Except.ok 0 from rfl]
  dsimp only
  rw [show progressiveThresholds = [1, 3/2, 2, 5/2] from rfl]
  rw [progressiveLoop_cons_empty _ _ _ _ _ _ _ _ (hrows 1),
      progressiveLoop_cons_empty _ _ _ _ _ _ _ _ (hrows (3/2)),
      progressiveLoop_cons_empty _ _ _ _ _ _ _ _ (hrows 2),
      progressiveLoop_cons_empty _ _ _ _ _ _ _ _ (hrows (5/2))]
  rfl

/-- C4 amended: provided the maxDistance ceiling admits the record (at least
1.3; the default 0.8 does not), the progressive search over [1.0, 1.5, 2.0,
2.5] finds nothing at 1.0, stops at 1.5, and returns the single record with
usedThreshold 1.5. -/
theorem progressive_second_threshold {V : Type} (env : Env V) (r : Row V)
    (text : Str) (ct : Option Str) (lim : Nat) (maxD : ℚ) (qv : V)
    (hemb : env.embed (cleanTextForEmbedding text) = .ok qv)
    (hdist : env.dist r.embedding qv = 13/10)
    (hct : rowPassesCt ct r = true)
    (hmax : 13/10 ≤ maxD) (hlim : 0 < lim) :
    (searchWithProgressiveThreshold env [r] text ct lim autoStr maxD).outcome = .ok
      { query := text, originalQuery := text, translatedQuery := none,
        wasTranslated := false, usedThreshold := some (3/2), maxDistance := maxD,
        testedThresholds := progressiveThresholds, resultsCount := 1,
        results := [mapRow env.dist qv r], detectedLanguage := none,
        technicalTerms := none } := by
  have hd1 : decide (env.dist r.embedding qv ≤ (1 : ℚ)) = false := by
    rw [hdist]; norm_num
  have hd2 : decide (env.dist r.embedding qv ≤ (3 : ℚ)/2) = true := by
    rw [hdist]; norm_num
  have hd3 : decide (env.dist r.embedding qv ≤ maxD) = true := by
    rw [hdist]; exact decide_eq_true hmax
  have hrows1 : progressiveRows env.dist [r] qv 1 maxD ct lim = [] := by
    refine progressiveRows_singleton_empty env.dist qv 1 maxD ct lim r ?_
    simp only [progressiveWhere, hd1, Bool.false_and]
  have hrows2 : progressiveRows env.dist [r] qv (3/2) maxD ct lim = [r] := by
    refine progressiveRows_singleton env.dist qv (3/2) maxD ct lim r ?_ hlim
    simp only [progressiveWhere, hd2, hd3, hct, Bool.and_true, Bool.true_and]
  unfold searchWithProgressiveThreshold
  rw [if_neg (by simp : ¬(autoStr ≠ [] ∧ autoStr ≠ enStr ∧ autoStr ≠ autoStr))]
  dsimp only
  rw [hemb]
  dsimp only
  rw [show progressiveThresholds = [1, 3/2, 2, 5/2] from rfl]
  rw [progressiveLoop_cons_empty _ _ _ _ _ _ _ _ hrows1,
      progressiveLoop_cons_found _ _ _ _ _ _ _ _ _ hrows2]
  rfl

/-- C4 amended, witness at a concrete input. -/
theorem progressive_second_threshold_witness :
    qEnv.embed (cleanTextForEmbedding ['q']) = .ok 0 ∧
    qEnv.dist (rowAt (13/10)).embedding 0 = 13/10 ∧
    rowPassesCt none (rowAt (13/10)) = true ∧
    (13/10 : ℚ) ≤ 3/2 ∧ 0 < 10 ∧
    (searchWithProgressiveThreshold qEnv [rowAt (13/10)] ['q'] none 10 autoStr (3/2)).outcome = .ok
      { query := ['q'], originalQuery := ['q'], translatedQuery := none,
        wasTranslated := false, usedThreshold := some (3/2), maxDistance := 3/2,
        testedThresholds := progressiveThresholds, resultsCount := 1,
        results := [mapRow qEnv.dist 0 (rowAt (13/10))], detectedLanguage := none,
        technicalTerms := none } :=
  ⟨rfl, by norm_num [qEnv, qDist, rowAt], rfl, by norm_num, by decide,
   progressive_second_threshold qEnv (rowAt (13/10)) ['q'] none 10 (3/2) 0 rfl
     (by norm_num [qEnv, qDist, rowAt]) rfl (by norm_num) (by decide)⟩

/-- Tokens produced by the whitespace split contain no whitespace
characters. -/
theorem splitWsAux_no_ws : ∀ (cs : Str) (prevWs : Bool) (acc : Str),
    (∀ ch ∈ acc, isWs ch = false) →
    ∀ t ∈ splitWsAux prevWs acc cs, ∀ ch ∈ t, isWs ch = false := by
  intro cs
  induction cs with
  | nil =>
    intro prevWs acc hacc t ht ch hch
    rw [splitWsAux] at ht
    simp only [List.mem_singleton] at ht
    subst ht
    exact hacc ch (List.mem_reverse.mp hch)
  | cons c cs ih =>
    intro prevWs acc hacc t ht ch hch
    rw [splitWsAux] at ht
    by_cases hc : isWs c = true
    · rw [if_pos hc] at ht
      cases prevWs with
      | true =>
        rw [if_pos rfl] at ht
        exact ih true acc hacc t ht ch hch
      | false =>
        rw [if_neg (by simp)] at ht
        rcases List.mem_cons.mp ht with h1 | h2
        · subst h1
          exact hacc ch (List.mem_reverse.mp hch)
        · exact ih true [] (by simp) t h2 ch hch
    · rw [if_neg hc] at ht
      refine ih false (c :: acc) ?_ t ht ch hch
      intro ch2 hch2
      rcases List.mem_cons.mp hch2 with h1 | h2
      · subst h1
        exact Bool.not_eq_true _ ▸ (by simpa using hc)
      · exact hacc ch2 h2

/-- Every token of the modelled JS split is whitespace-free. -/
theorem splitWs_no_ws (text : Str) :
    ∀ t ∈ splitWs text, ∀ ch ∈ t, isWs ch = false :=
  splitWsAux_no_ws text false [] (by simp)

/-- Inserting a whitespace character splits the word extraction. -/
theorem wordsOfAux_append_ws (xs : Str) (d : Char) (ys : Str)
    (hd : isWs d = true) : ∀ (acc : Str),
    wordsOfAux acc (xs ++ d :: ys) = wordsOfAux acc xs ++ wordsOfAux [] ys := by
  induction xs with
  | nil =>
    intro acc
    simp [wordsOfAux, hd]
  | cons c xs ih =>
    intro acc
    by_cases hc : isWs c = true
    · simp [wordsOfAux, hc, ih, List.append_assoc]
    · simp only [List.cons_append, wordsOfAux, hc, if_false, Bool.false_eq_true]
      exact ih (c :: acc)

/-- On a whitespace-free string the word extraction yields the pending token
glued to that string. -/
theorem wordsOfAux_no_ws : ∀ (t : Str), (∀ ch ∈ t, isWs ch = false) →
    ∀ (acc : Str), wordsOfAux acc t = emitTok (t.reverse ++ acc) := by
  intro t
  induction t with
  | nil =>
    intro _ acc
    simp [wordsOfAux]
  | cons c t ih =>
    intro h acc
    have hc : isWs c = false := h c (List.mem_cons_self c t)
    have ht : ∀ ch ∈ t, isWs ch = false := fun ch hch => h ch (List.mem_cons_of_mem c hch)
    simp only [wordsOfAux, hc, if_false, Bool.false_eq_true]
    rw [ih ht (c :: acc)]
    simp [List.append_assoc]

/-- The words of a whitespace-free string: none if it is empty, itself
otherwise. -/
theorem wordsOf_no_ws (t : Str) (h : ∀ ch ∈ t, isWs ch = false) :
    wordsOf t = if t = [] then [] else [t] := by
  unfold wordsOf
  rw [wordsOfAux_no_ws t h []]
  unfold emitTok
  by_cases ht : t = []
  · simp [ht]
  · simp [ht, List.reverse_eq_nil_iff]

/-- A string of whitespace only has no words. -/
theorem wordsOfAux_allws : ∀ (s : Str), (∀ ch ∈ s, isWs ch = true) →
    wordsOfAux [] s = [] := by
  intro s
  induction s with
  | nil => simp [wordsOfAux, emitTok]
  | cons c s ih =>
    intro h
    have hc : isWs c = true := h c (List.mem_cons_self c s)
    simp only [wordsOfAux, hc, if_true]
    rw [ih (fun ch hch => h ch (List.mem_cons_of_mem c hch))]
    simp [emitTok]

/-- Appending whitespace does not change the words of a string. -/
theorem wordsOf_append_allws (a s : Str) (h : ∀ ch ∈ s, isWs ch = true) :
    wordsOf (a ++ s) = wordsOf a := by
  cases s with
  | nil => simp
  | cons d s =>
    have hd : isWs d = true := h d (List.mem_cons_self d s)
    unfold wordsOf
    rw [wordsOfAux_append_ws a d s hd []]
    rw [wordsOfAux_allws s (fun ch hch => h ch (List.mem_cons_of_mem d hch))]
    simp

/-- Dropping leading whitespace does not change the words of a string. -/
theorem wordsOf_dropWhile_ws (x : Str) :
    wordsOf (x.dropWhile isWs) = wordsOf x := by
  induction x with
  | nil => rfl
  | cons c x ih =>
    by_cases hc : isWs c = true
    · rw [List.dropWhile_cons_of_pos hc, ih]
      unfold wordsOf
      rw [wordsOfAux]
      simp [hc, emitTok]
    · rw [List.dropWhile_cons_of_neg (by simp [hc])]

/-- trimRight removes a whitespace-only suffix. -/
theorem trimRight_decomp : ∀ (y : Str),
    ∃ s, y = trimRight y ++ s ∧ ∀ ch ∈ s, isWs ch = true := by
  intro y
  induction y with
  | nil => exact ⟨[], rfl, by simp⟩
  | cons c y ih =>
    obtain ⟨s, hs, hws⟩ := ih
    by_cases hcond : (trimRight y = [] && isWs c) = true
    · refine ⟨c :: y, ?_, ?_⟩
      · rw [trimRight]
        simp only [hcond, if_true]
        rfl
      · intro ch hch
        have hcond2 : trimRight y = [] ∧ isWs c = true := by simpa using hcond
        rcases List.mem_cons.mp hch with h1 | h2
        · subst h1
          exact hcond2.2
        · have hy : y = s := by
            have h3 := hs
            rw [hcond2.1] at h3
            simpa using h3
          exact hws ch (hy ▸ h2)
    · refine ⟨s, ?_, hws⟩
      rw [trimRight]
      simp only [hcond, if_false, Bool.false_eq_true]
      rw [List.cons_append, ← hs]

/-- Trimming trailing whitespace does not change the words of a string. -/
theorem wordsOf_trimRight (y : Str) : wordsOf (trimRight y) = wordsOf y := by
  obtain ⟨s, hs, hws⟩ := trimRight_decomp y
  conv_rhs => rw [hs]
  rw [wordsOf_append_allws _ s hws]

/-- JS trim does not change the words of a string. -/
theorem wordsOf_trimChars (x : Str) : wordsOf (trimChars x) = wordsOf x := by
  unfold trimChars
  rw [wordsOf_trimRight, wordsOf_dropWhile_ws]

/-- The words of a space-joined token list are its non-empty tokens, when
the tokens are whitespace-free. -/
theorem wordsOf_joinSpace : ∀ (ts : List Str),
    (∀ t ∈ ts, ∀ ch ∈ t, isWs ch = false) →
    wordsOf (joinSpace ts) = ts.filter (fun t => !t.isEmpty) := by
  intro ts
  induction ts with
  | nil => intro _; rfl
  | cons t ts ih =>
    intro h
    have hT : ∀ ch ∈ t, isWs ch = false := h t (List.mem_cons_self t ts)
    have hts : ∀ u ∈ ts, ∀ ch ∈ u, isWs ch = false :=
      fun u hu => h u (List.mem_cons_of_mem t hu)
    cases ts with
    | nil =>
      rw [show joinSpace [t] = t from rfl]
      rw [wordsOf_no_ws t hT]
      by_cases hE : t = []
      · simp [hE]
      · simp [hE, List.isEmpty_iff]
    | cons t2 ts2 =>
      rw [show joinSpace (t :: t2 :: ts2) = t ++ ' ' :: joinSpace (t2 :: ts2) from rfl]
      unfold wordsOf
      rw [wordsOfAux_append_ws t ' ' (joinSpace (t2 :: ts2)) rfl []]
      have h1 : wordsOfAux ([] : Str) t = emitTok t.reverse := by
        rw [wordsOfAux_no_ws t hT []]
        simp
      rw [h1]
      rw [show wordsOfAux ([] : Str) (joinSpace (t2 :: ts2)) =
            wordsOf (joinSpace (t2 :: ts2)) from rfl]
      rw [ih hts]
      by_cases hE : t = []
      · simp [hE, emitTok]
      · have hrev : emitTok t.reverse = [t] := by
          unfold emitTok
          simp [List.reverse_eq_nil_iff, hE]
        rw [show List.filter (fun u => !u.isEmpty) (t :: t2 :: ts2) =
              t :: List.filter (fun u => !u.isEmpty) (t2 :: ts2) from
            List.filter_cons_of_pos (by simp [List.isEmpty_iff, hE])]
        rw [hrev]
        rfl

/-- The words of one produced chunk are the non-empty tokens of its word
window, when the tokens are whitespace-free. -/
theorem wordsOf_chunk (slice : List Str)
    (h : ∀ t ∈ slice, ∀ ch ∈ t, isWs ch = false) :
    wordsOf (trimChars (joinSpace slice)) = slice.filter (fun t => !t.isEmpty) := by
  rw [wordsOf_trimChars, wordsOf_joinSpace slice h]

/-- An element of a word window belongs to the word list. -/
theorem mem_of_mem_slice {α : Type} (l : List α) (i m : Nat) (t : α)
    (h : t ∈ (l.drop i).take m) : t ∈ l :=
  List.drop_subset i l (List.take_subset m _ h)

/-- The element at position j lies in the window of m elements starting at
i whenever i ≤ j < i + m. -/
theorem get_mem_slice {α : Type} (l : List α) (i m j : Nat) (h1 : i ≤ j)
    (h2 : j < i + m) (hj : j < l.length) :
    l.get ⟨j, hj⟩ ∈ (l.drop i).take m := by
  have hdl : j - i < ((l.drop i).take m).length := by
    simp [List.length_take, List.length_drop]
    omega
  have he : ((l.drop i).take m).get ⟨j - i, hdl⟩ = l.get ⟨j, hj⟩ := by
    simp [List.getElem_take, List.getElem_drop]
    congr 1
    omega
  rw [← he]
  exact List.get_mem _ _ _

/-- Full behaviour of the chunking loop for a positive step bounded by the
window size: it exits within the given fuel, every kept chunk is non-empty
and at most maxW words long, and every non-empty word from position i on
appears among the words of some kept chunk. -/
theorem chunkLoopFuel_spec (words : List Str) (m step : Nat)
    (hstep : 0 < step) (hsm : step ≤ m)
    (hw : ∀ t ∈ words, ∀ ch ∈ t, isWs ch = false) :
    ∀ (fuel i : Nat), words.length - i < fuel →
    ∃ cs, chunkLoopFuel words m step i fuel = some cs ∧
      (∀ c ∈ cs, c ≠ [] ∧ (wordsOf c).length ≤ m) ∧
      (∀ j (hj : j < words.length), i ≤ j → words.get ⟨j, hj⟩ ≠ [] →
        ∃ c ∈ cs, words.get ⟨j, hj⟩ ∈ wordsOf c) := by
  intro fuel
  induction fuel with
  | zero =>
    intro i hfuel
    omega
  | succ n ih =>
    intro i hfuel
    by_cases hend : words.length ≤ i
    · refine ⟨[], ?_, by simp, ?_⟩
      · rw [chunkLoopFuel, if_pos hend]
      · intro j hj hij _
        have : False := by omega
        exact this.elim
    · push_neg at hend
      have hrec : words.length - (i + step) < n := by omega
      obtain ⟨rest, hrest, hrest1, hrest2⟩ := ih (i + step) hrec
      have hsliceW : ∀ t ∈ (words.drop i).take m, ∀ ch ∈ t, isWs ch = false :=
        fun t ht => hw t (mem_of_mem_slice words i m t ht)
      have hchunkW : wordsOf (trimChars (joinSpace ((words.drop i).take m))) =
          ((words.drop i).take m).filter (fun t => !t.isEmpty) :=
        wordsOf_chunk _ hsliceW
      by_cases hE : trimChars (joinSpace ((words.drop i).take m)) = []
      · refine ⟨rest, ?_, hrest1, ?_⟩
        · rw [chunkLoopFuel, if_neg (by omega), hrest]
          simp [hE]
        · intro j hj hij hnz
          by_cases hjs : i + step ≤ j
          · exact hrest2 j hj hjs hnz
          · exfalso
            have hmem : words.get ⟨j, hj⟩ ∈ (words.drop i).take m :=
              get_mem_slice words i m j hij (by omega) hj
            have hin : words.get ⟨j, hj⟩ ∈
                wordsOf (trimChars (joinSpace ((words.drop i).take m))) := by
              rw [hchunkW]
              exact List.mem_filter.mpr ⟨hmem, by simpa [List.isEmpty_iff] using hnz⟩
            rw [hE] at hin
            simp [wordsOf, wordsOfAux, emitTok] at hin
      · refine ⟨trimChars (joinSpace ((words.drop i).take m)) :: rest, ?_, ?_, ?_⟩
        · rw [chunkLoopFuel, if_neg (by omega), hrest]
          simp [hE]
        · intro c hc
          rcases List.mem_cons.mp hc with h1 | h2
          · subst h1
            refine ⟨hE, ?_⟩
            rw [hchunkW]
            have hf : (((words.drop i).take m).filter (fun t => !t.isEmpty)).length ≤
                ((words.drop i).take m).length := List.length_filter_le _ _
            have ht : ((words.drop i).take m).length ≤ m := by
              rw [List.length_take]
              exact min_le_left _ _
            omega
          · exact hrest1 c h2
        · intro j hj hij hnz
          by_cases hjs : i + step ≤ j
          · obtain ⟨c, hc, hcw⟩ := hrest2 j hj hjs hnz
            exact ⟨c, List.mem_cons_of_mem _ hc, hcw⟩
          · have hmem : words.get ⟨j, hj⟩ ∈ (words.drop i).take m :=
              get_mem_slice words i m j hij (by omega) hj
            refine ⟨trimChars (joinSpace ((words.drop i).take m)),
              List.mem_cons_self _ _, ?_⟩
            rw [hchunkW]
            exact List.mem_filter.mpr ⟨hmem, by simpa [List.isEmpty_iff] using hnz⟩

/-- C6: whenever the effective parameters satisfy overlap < maxWords, the
chunker terminates and returns a finite list of non-empty chunks, each at
most maxWords whitespace-delimited words long, which together cover every
word of the input. -/
theorem splitTextIntoChunks_terminates_covers (cenv : ChunkEnv) (text : Str)
    (maxWords overlap : Option Nat)
    (hpre : effOverlap cenv overlap < effMaxWords cenv maxWords) :
    ∃ cs, splitTextIntoChunks cenv text maxWords overlap = some cs ∧
      (∀ c ∈ cs, c ≠ [] ∧ (wordsOf c).length ≤ effMaxWords cenv maxWords) ∧
      (∀ w ∈ splitWs text, w ≠ [] → ∃ c ∈ cs, w ∈ wordsOf c) := by
  have hstep : 0 < effMaxWords cenv maxWords - effOverlap cenv overlap := by omega
  have hsm : effMaxWords cenv maxWords - effOverlap cenv overlap ≤
      effMaxWords cenv maxWords := by omega
  obtain ⟨cs, hcs, h1, h2⟩ := chunkLoopFuel_spec (splitWs text)
    (effMaxWords cenv maxWords) (effMaxWords cenv maxWords - effOverlap cenv overlap)
    hstep hsm (splitWs_no_ws text) ((splitWs text).length + 1) 0 (by omega)
  refine ⟨cs, ?_, h1, ?_⟩
  · unfold splitTextIntoChunks
    exact hcs
  · intro w hwmem hwne
    rcases List.mem_iff_get.mp hwmem with ⟨⟨j, hj⟩, hje⟩
    obtain ⟨c, hc, hcw⟩ := h2 j hj (Nat.zero_le j) (by rw [hje]; exact hwne)
    exact ⟨c, hc, hje ▸ hcw⟩

/-- C6, witness at a concrete input. -/
theorem splitTextIntoChunks_terminates_covers_witness :
    effOverlap ⟨none, none⟩ (some 1) < effMaxWords ⟨none, none⟩ (some 2) ∧
    ∃ cs, splitTextIntoChunks ⟨none, none⟩ ['a', ' ', 'b'] (some 2) (some 1) = some cs ∧
      (∀ c ∈ cs, c ≠ [] ∧ (wordsOf c).length ≤ effMaxWords ⟨none, none⟩ (some 2)) ∧
      (∀ w ∈ splitWs ['a', ' ', 'b'], w ≠ [] → ∃ c ∈ cs, w ∈ wordsOf c) :=
  ⟨by decide, splitTextIntoChunks_terminates_covers ⟨none, none⟩ ['a', ' ', 'b']
    (some 2) (some 1) (by decide)⟩

/-- Unfolding equation: an empty chunk batch succeeds with no rows. -/
theorem processChunks_nil {V : Type} (env : Env V) (lang : Str)
    (docId total i : Nat) :
    processChunks env lang docId total i ([] : List Str) = .ok [] := rfl

/-- Unfolding equation of the chunk batch on a non-empty list. -/
theorem processChunks_cons {V : Type} (env : Env V) (lang : Str)
    (docId total i : Nat) (c : Str) (cs : List Str) :
    processChunks env lang docId total i (c :: cs) =
      match processChunk env lang docId total i c with
      | .error e => .error e
      | .ok row =>
        match processChunks env lang docId total (i + 1) cs with
        | .error e => .error e
        | .ok rows => .ok (row :: rows) := rfl

/-- If any single chunk of the batch fails, the joined batch fails. -/
theorem processChunks_error {V : Type} (env : Env V) (lang : Str)
    (docId total : Nat) : ∀ (chunks : List Str) (i k : Nat)
    (hk : k < chunks.length) (e : Str),
    processChunk env lang docId total (i + k) (chunks.get ⟨k, hk⟩) = .error e →
    ∃ e2, processChunks env lang docId total i chunks = .error e2 := by
  intro chunks
  induction chunks with
  | nil =>
    intro i k hk e _
    exact absurd hk (by simp)
  | cons c cs ih =>
    intro i k hk e h
    cases k with
    | zero =>
      refine ⟨e, ?_⟩
      rw [processChunks_cons]
      rw [show processChunk env lang docId total i c = .error e from h]
    | succ k2 =>
      cases hc : processChunk env lang docId total i c with
      | error e3 =>
        refine ⟨e3, ?_⟩
        rw [processChunks_cons, hc]
      | ok row =>
        have hk2 : k2 < cs.length := by simpa using hk
        have h2 : processChunk env lang docId total ((i + 1) + k2)
            (cs.get ⟨k2, hk2⟩) = .error e := by
          rw [show (i + 1) + k2 = i + (k2 + 1) from by omega]
          exact h
        obtain ⟨e2, he2⟩ := ih (i + 1) k2 hk2 e h2
        refine ⟨e2, ?_⟩
        rw [processChunks_cons, hc, he2]

/-- When the embedding model succeeds, one chunk's processing yields a row
carrying the owning document id, its index and the chunk total. -/
theorem processChunk_ok {V : Type} (env : Env V) (lang : Str)
    (docId total idx : Nat) (c : Str)
    (hembed : ∀ s, ∃ v, env.embed s = .ok v) :
    ∃ row, processChunk env lang docId total idx c = .ok row ∧
      row.documentId = some docId ∧ row.chunkIndex = some idx ∧
      row.chunkTotal = some total := by
  unfold processChunk
  by_cases hl : lang ≠ [] ∧ lang ≠ enStr
  · rw [if_pos hl]
    dsimp only
    obtain ⟨v, hv⟩ := hembed (cleanTextForEmbedding
      (translateToEnglishPreservingTechnicalTerms (env.translateOutcome c lang) c lang).translatedText)
    rw [hv]
    exact ⟨_, rfl, rfl, rfl, rfl⟩
  · rw [if_neg hl]
    dsimp only
    obtain ⟨v, hv⟩ := hembed (cleanTextForEmbedding c)
    rw [hv]
    exact ⟨_, rfl, rfl, rfl, rfl⟩

/-- When the embedding model succeeds throughout, the joined batch yields
one row per chunk, indexed consecutively from the start index, all carrying
the owning document id and the chunk total. -/
theorem processChunks_ok {V : Type} (env : Env V) (lang : Str)
    (docId total : Nat) (hembed : ∀ s, ∃ v, env.embed s = .ok v) :
    ∀ (chunks : List Str) (i : Nat),
    ∃ rows, processChunks env lang docId total i chunks = .ok rows ∧
      rows.map (fun r => r.chunkIndex) = (List.range' i chunks.length).map some ∧
      ∀ r ∈ rows, r.documentId = some docId ∧ r.chunkTotal = some total := by
  intro chunks
  induction chunks with
  | nil =>
    intro i
    exact ⟨[], rfl, by simp, by simp⟩
  | cons c cs ih =>
    intro i
    obtain ⟨row, hrow, hrid, hridx, hrtot⟩ := processChunk_ok env lang docId total i c hembed
    obtain ⟨rows, hrows, hmap, hprops⟩ := ih (i + 1)
    refine ⟨row :: rows, ?_, ?_, ?_⟩
    · rw [processChunks_cons, hrow, hrows]
    · rw [show (c :: cs).length = cs.length + 1 from rfl, List.range'_succ]
      simp only [List.map_cons, hridx, hmap]
    · intro r hr
      rcases List.mem_cons.mp hr with h1 | h2
      · subst h1
        exact ⟨hrid, hrtot⟩
      · exact hprops r h2

/-- C1: ingestion is atomic. If the processing of any single chunk fails
(here: its embedding call, the one fallible step, since translation
degrades instead of throwing), the whole ingestion returns the rethrown
error and the database afterwards is exactly the database before - no chunk
row and no document row of this ingestion is queryable, and in particular
(given fresh ids) zero embeddings rows carry the assigned documentId. -/
theorem processDocumentWithChunking_rolls_back {V : Type} (env : Env V)
    (cenv : ChunkEnv) (db : DB V) (content title dt comp lang : Str)
    (chunks : List Str) (k : Nat) (hk : k < chunks.length) (e : Str)
    (hsplit : splitTextIntoChunks cenv content none none = some chunks)
    (hfail : processChunk env lang db.nextId chunks.length k (chunks.get ⟨k, hk⟩) = .error e) :
    ∃ e2, processDocumentWithChunking env cenv db content title dt comp lang =
      some (.error e2, db) ∧
      ((∀ r ∈ db.embs, r.documentId ≠ some db.nextId) →
        db.embs.filter (fun r => r.documentId = some db.nextId) = []) := by
  obtain ⟨e2, he2⟩ := processChunks_error env lang db.nextId chunks.length chunks 0 k hk e
    (by rw [Nat.zero_add]; exact hfail)
  refine ⟨e2, ?_, ?_⟩
  · unfold processDocumentWithChunking
    rw [hsplit]
    unfold transaction
    dsimp only
    rw [he2]
  · intro hfresh
    rw [List.filter_eq_nil_iff]
    intro r hr
    simpa using hfresh r hr

/-- C1, witness at a concrete input: a one-chunk document whose embedding
call fails. -/
theorem processDocumentWithChunking_rolls_back_witness :
    splitTextIntoChunks ⟨none, none⟩ ['h', 'i'] none none = some [['h', 'i']] ∧
    processChunk failEnv enStr dbEmpty.nextId 1 0 (([['h', 'i']] : List Str).get ⟨0, by decide⟩) =
      .error ['b', 'o', 'o', 'm'] ∧
    ∃ e2, processDocumentWithChunking failEnv ⟨none, none⟩ dbEmpty ['h', 'i'] ['t'] ['p'] ['s'] enStr =
      some (.error e2, dbEmpty) ∧
      ((∀ r ∈ dbEmpty.embs, r.documentId ≠ some dbEmpty.nextId) →
        dbEmpty.embs.filter (fun r => r.documentId = some dbEmpty.nextId) = []) :=
  ⟨by decide, by decide,
   processDocumentWithChunking_rolls_back failEnv ⟨none, none⟩ dbEmpty
     ['h', 'i'] ['t'] ['p'] ['s'] enStr [['h', 'i']] 0 (by decide)
     ['b', 'o', 'o', 'm'] (by decide) (by decide)⟩

/-- C2: a successful ingestion of N chunks inserts exactly one row per
chunk, each carrying chunkTotal N and the owning documentId, with
chunkIndex values exactly 0..N-1 in order (no gaps, no duplicates); the
document row list gains exactly one row with the assigned id, every
document row with that id stores totalChunks N, and (given fresh ids) the
embeddings rows carrying that documentId are exactly the new rows. -/
theorem processDocumentWithChunking_bookkeeping {V : Type} (env : Env V)
    (cenv : ChunkEnv) (db : DB V) (content title dt comp lang : Str)
    (chunks : List Str)
    (hsplit : splitTextIntoChunks cenv content none none = some chunks)
    (hembed : ∀ s, ∃ v, env.embed s = .ok v) :
    ∃ res db2 newRows,
      processDocumentWithChunking env cenv db content title dt comp lang =
        some (.ok res, db2) ∧
      res.documentId = db.nextId ∧
      res.chunksCreated = chunks.length ∧
      db2.embs = db.embs ++ newRows ∧
      newRows.map (fun r => r.chunkIndex) = (List.range chunks.length).map some ∧
      (∀ r ∈ newRows, r.documentId = some db.nextId ∧ r.chunkTotal = some chunks.length) ∧
      db2.docs.map (fun d => d.id) = db.docs.map (fun d => d.id) ++ [db.nextId] ∧
      (∀ d ∈ db2.docs, d.id = db.nextId → d.totalChunks = chunks.length) ∧
      ((∀ r ∈ db.embs, r.documentId ≠ some db.nextId) →
        db2.embs.filter (fun r => r.documentId = some db.nextId) = newRows) := by
  obtain ⟨rows, hrows, hmap, hprops⟩ :=
    processChunks_ok env lang db.nextId chunks.length hembed chunks 0
  have hlen : rows.length = chunks.length := by
    have h1 : (rows.map (fun r => r.chunkIndex)).length = rows.length := List.length_map _ _
    have h2 : ((List.range' 0 chunks.length).map some).length = chunks.length := by
      simp [List.length_range']
    rw [hmap] at h1
    omega
  have hcall : processDocumentWithChunking env cenv db content title dt comp lang =
      some (.ok
        { documentId := db.nextId
          chunksCreated := rows.length
          totalWords := (splitWs content).length
          wasTranslated := (ingestDocTranslation env content lang).2
          language := ingestReportedLanguage (ingestDocTranslation env content lang).1 lang },
        { docs := (db.docs ++ [ingestDocRow db.nextId title dt comp lang
              content.length (ingestDocTranslation env content lang).2]).map
            (setTotalChunks db.nextId chunks.length)
          embs := db.embs ++ rows
          nextId := db.nextId + 1 }) := by
    unfold processDocumentWithChunking
    rw [hsplit]
    unfold transaction
    dsimp only
    rw [hrows]
  refine ⟨_, _, rows, hcall, rfl, hlen, rfl, ?_, hprops, ?_, ?_, ?_⟩
  · rw [List.range_eq_range']
    exact hmap
  · simp only [List.map_append, List.map_map, List.map_cons, List.map_nil]
    have hcongr : db.docs.map ((fun d => d.id) ∘ setTotalChunks db.nextId chunks.length) =
        db.docs.map (fun d => d.id) := by
      refine List.map_congr_left ?_
      intro d _
      by_cases hd : d.id = db.nextId <;> simp [setTotalChunks, hd]
    rw [hcongr]
    simp [setTotalChunks, ingestDocRow]
  · intro d hd hdid
    rcases List.mem_map.mp hd with ⟨d0, _, hd0⟩
    unfold setTotalChunks at hd0
    by_cases h0 : d0.id = db.nextId
    · rw [if_pos h0] at hd0
      rw [← hd0]
    · rw [if_neg h0] at hd0
      exact absurd (hd0 ▸ hdid) h0
  · intro hfresh
    dsimp only
    rw [List.filter_append]
    rw [show db.embs.filter (fun r => decide (r.documentId = some db.nextId)) = [] from by
      rw [List.filter_eq_nil_iff]
      intro r hr
      simpa using hfresh r hr]
    rw [List.nil_append]
    rw [List.filter_eq_self]
    intro r hr
    simpa using (hprops r hr).1

/-- C2, witness at a concrete input: a one-chunk English document with an
always-succeeding embedding model. -/
theorem processDocumentWithChunking_bookkeeping_witness :
    splitTextIntoChunks ⟨none, none⟩ ['h', 'i'] none none = some [['h', 'i']] ∧
    ∃ res db2 newRows,
      processDocumentWithChunking qEnv ⟨none, none⟩ dbEmpty ['h', 'i'] ['t'] ['p'] ['s'] enStr =
        some (.ok res, db2) ∧
      res.documentId = dbEmpty.nextId ∧
      res.chunksCreated = ([['h', 'i']] : List Str).length ∧
      db2.embs = dbEmpty.embs ++ newRows ∧
      newRows.map (fun r => r.chunkIndex) =
        (List.range ([['h', 'i']] : List Str).length).map some ∧
      (∀ r ∈ newRows, r.documentId = some dbEmpty.nextId ∧
        r.chunkTotal = some ([['h', 'i']] : List Str).length) ∧
      db2.docs.map (fun d => d.id) = dbEmpty.docs.map (fun d => d.id) ++ [dbEmpty.nextId] ∧
      (∀ d ∈ db2.docs, d.id = dbEmpty.nextId →
        d.totalChunks = ([['h', 'i']] : List Str).length) ∧
      ((∀ r ∈ dbEmpty.embs, r.documentId ≠ some dbEmpty.nextId) →
        db2.embs.filter (fun r => r.documentId = some dbEmpty.nextId) = newRows) :=
  ⟨by decide,
   processDocumentWithChunking_bookkeeping qEnv ⟨none, none⟩ dbEmpty
     ['h', 'i'] ['t'] ['p'] ['s'] enStr [['h', 'i']] (by decide)
     (fun s => ⟨0, rfl⟩)⟩

end SapBuilder
